import Mathlib

/-
Verification of the blob-preconfs auction coordination engine.

The development shallowly embeds the two Go source files:
  * pkg/auction (codec file): `SignedBid`, `CreateSignedBid`, `Verify`,
    `EncodeSignedBid`, `DecodeSignedBid`, `getDataHash`;
  * pkg/listener/listener.go: the block polling loop, `MustGetBlockNum`,
    `FacilitateRelayAuction`, `SubmitBid`, `GetCurrentBid`.

Byte strings are `List Nat` (each entry one byte).  Go `*big.Int` fields are
`Option Int` (`none` is the nil pointer).  The go-ethereum cryptographic
primitives (Keccak256, ECDSA sign / recover, address derivation) are library
code outside this repository; they appear as function parameters, and the
recoverable-signature property they guarantee appears as an explicit
hypothesis where a theorem needs it.  `RelayAuction` (pkg/auction's round
object) is not among the repository's files; its two operations used by the
listener are modelled from the spec and marked as such.
-/

namespace BlobPreconfs

/-- Byte strings: each entry is one byte value. -/
abbrev Bytes := List Nat

/-- The bytes of the JSON field name "amountWei". -/
def amountWeiKey : Bytes := [97, 109, 111, 117, 110, 116, 87, 101, 105]

/-- The bytes of the JSON field name "l1Block". -/
def l1BlockKey : Bytes := [108, 49, 66, 108, 111, 99, 107]

/-- The bytes of the JSON field name "address". -/
def addressKey : Bytes := [97, 100, 100, 114, 101, 115, 115]

/-- The bytes of the JSON field name "signature". -/
def signatureKey : Bytes := [115, 105, 103, 110, 97, 116, 117, 114, 101]

/-- The bytes of the text "<nil>", which Go's `(*big.Int).String` returns on a
nil receiver. -/
def nilText : Bytes := [60, 110, 105, 108, 62]

/-- `SignedBid` from the auction package.  `AmountWei` and `L1Block` are
`*big.Int` (nil = `none`), `Address` a 20-byte identity, `Signature` raw
signature bytes. -/
structure SignedBid where
  amountWei : Option Int
  l1Block : Option Int
  address : Bytes
  signature : Bytes
deriving DecidableEq, Repr

/-- The all-zero 20-byte address, Go's `common.Address{}`. -/
def zeroAddress : Bytes := List.replicate 20 0

/-- The zero value of `SignedBid` (nil big ints, zero address, nil bytes). -/
def zeroBid : SignedBid :=
  { amountWei := none, l1Block := none, address := zeroAddress, signature := [] }

/-- Decimal digits of `n`, most significant first, written with `fuel`
structural recursion (`fuel = n` always suffices). -/
def natToDecAux : Nat → Nat → Bytes
  | 0, _ => []
  | fuel + 1, n =>
    if n = 0 then [] else natToDecAux fuel (n / 10) ++ [48 + n % 10]

/-- The ASCII decimal representation of a natural number, as Go's base-10
`String` of a non-negative `big.Int` produces it. -/
def natToDec (n : Nat) : Bytes :=
  if n = 0 then [48] else natToDecAux n n

/-- The ASCII decimal representation of an integer ('-' sign for negatives),
as Go's `(*big.Int).String` produces it. -/
def intToDec (n : Int) : Bytes :=
  if n < 0 then 45 :: natToDec n.natAbs else natToDec n.natAbs

/-- Go's `(*big.Int).String`: decimal text, or "<nil>" for a nil pointer. -/
def bigIntString : Option Int → Bytes
  | none => nilText
  | some n => intToDec n

/-- The pre-hash byte string `getDataHash` feeds to Keccak256:
`fmt.Sprintf("%s%s", amountWei.String(), l1Block.String())`. -/
def preHashBytes (amountWei l1Block : Option Int) : Bytes :=
  bigIntString amountWei ++ bigIntString l1Block

/-- `getDataHash` from the auction package, with the library Keccak256 hash
as a parameter: it hashes the concatenation of the two decimal strings. -/
def getDataHash (keccak : Bytes → Bytes) (amountWei l1Block : Option Int) : Bytes :=
  keccak (preHashBytes amountWei l1Block)

/-- `CreateSignedBid`: hash the pair, sign the hash with the private key
(`crypto.Sign`), recover the signer's public key from the produced signature
(`getAddressFromSig` via `crypto.SigToPub`), derive the address
(`crypto.PubkeyToAddress`), and return the populated bid; `none` when either
primitive fails.  The three library primitives are parameters: `signPrim`
(private key, hash) → signature, `sigToPub` (signature, hash) → public key,
`pubToAddr` public key → 20-byte address. -/
def CreateSignedBid (keccak : Bytes → Bytes) (signPrim : Nat → Bytes → Option Bytes)
    (sigToPub : Bytes → Bytes → Option Nat) (pubToAddr : Nat → Bytes)
    (amountWei l1Block : Option Int) (privateKey : Nat) : Option SignedBid :=
  let hash := getDataHash keccak amountWei l1Block
  match signPrim privateKey hash with
  | none => none
  | some sigBytes =>
    match sigToPub sigBytes hash with
    | none => none
    | some pub =>
      some { amountWei := amountWei, l1Block := l1Block,
             address := pubToAddr pub, signature := sigBytes }

/-- `(*SignedBid).Verify`: recompute the digest, recover the signer from the
stored signature (`crypto.SigToPub`); a recovery error yields `false`,
otherwise compare the recovered address with the declared one. -/
def SignedBid.Verify (keccak : Bytes → Bytes) (sigToPub : Bytes → Bytes → Option Nat)
    (pubToAddr : Nat → Bytes) (b : SignedBid) : Bool :=
  let hash := getDataHash keccak b.amountWei b.l1Block
  match sigToPub b.signature hash with
  | none => false
  | some pub => decide (pubToAddr pub = b.address)

/-
Wire codec.  `EncodeSignedBid` / `DecodeSignedBid` call Go's `encoding/json`;
the embedding works at the level of syntactically valid JSON values (the Go
decoder validates raw syntax before any field is unmarshalled).  A number
node keeps the literal's text, since `big.Int.UnmarshalJSON` receives and
parses exactly that text.
-/

/-- A JSON value: null, a number literal (its raw text bytes), a string (its
contents), or an object (its fields in document order). -/
inductive Json where
  | null : Json
  | num (text : Bytes) : Json
  | str (text : Bytes) : Json
  | obj (fields : List (Bytes × Json)) : Json

/-- Value of an ASCII decimal digit byte, `none` for any other byte. -/
def digitVal (c : Nat) : Option Nat :=
  if 48 ≤ c ∧ c ≤ 57 then some (c - 48) else none

/-- Decimal accumulation: consume digit bytes left to right, fail on a
non-digit. -/
def parseNatFrom (acc : Nat) : Bytes → Option Nat
  | [] => some acc
  | c :: rest =>
    match digitVal c with
    | some d => parseNatFrom (acc * 10 + d) rest
    | none => none

/-- A non-empty all-digit byte string as a natural number (Go's base-10
big-integer scan of an unsigned literal: at least one digit, all input
consumed). -/
def parseNat (s : Bytes) : Option Nat :=
  match s with
  | [] => none
  | _ :: _ => parseNatFrom 0 s

/-- `big.Int.UnmarshalText` on base-10 text: an optional '+' or '-' sign then
a non-empty run of digits, nothing else. -/
def parseBigInt : Bytes → Option Int
  | [] => none
  | c :: rest =>
    if c = 45 then (parseNat rest).map (fun n => -(n : Int))
    else if c = 43 then (parseNat rest).map (fun n => (n : Int))
    else (parseNat (c :: rest)).map (fun n => (n : Int))

/-- Value of a hexadecimal digit byte (0-9, a-f, A-F), `none` otherwise. -/
def hexVal (c : Nat) : Option Nat :=
  if 48 ≤ c ∧ c ≤ 57 then some (c - 48)
  else if 97 ≤ c ∧ c ≤ 102 then some (c - 87)
  else if 65 ≤ c ∧ c ≤ 70 then some (c - 55)
  else none

/-- Hex pairs to bytes; fails on a non-hex byte or odd length (Go
`hex.Decode`). -/
def parseHexBody : Bytes → Option Bytes
  | [] => some []
  | [_] => none
  | c1 :: c2 :: rest =>
    match hexVal c1, hexVal c2, parseHexBody rest with
    | some hi, some lo, some bs => some ((16 * hi + lo) :: bs)
    | _, _, _ => none

/-- `hexutil` text decoding (`checkText` then `hex.Decode`): an empty input
is explicitly allowed and decodes to no bytes; otherwise a mandatory
`0x` / `0X` marker before an even run of hex digits, and a missing marker
fails. -/
def parseHexText (s : Bytes) : Option Bytes :=
  match s with
  | [] => some []
  | 48 :: x :: rest => if x = 120 ∨ x = 88 then parseHexBody rest else none
  | _ => none

/-- `common.Address` text decoding (`hexutil.UnmarshalFixedText`): hex text
decoding plus the exact 20-byte length check. -/
def parseAddressText (s : Bytes) : Option Bytes :=
  match parseHexText s with
  | some bs => if bs.length = 20 then some bs else none
  | none => none

/-- Lowercase hex digit byte of a value below 16. -/
def hexDigit (d : Nat) : Nat := if d < 10 then 48 + d else 87 + d

/-- Two lowercase hex digit bytes of one byte. -/
def byteToHex (b : Nat) : Bytes := [hexDigit (b / 16), hexDigit (b % 16)]

/-- `hexutil` text encoding: `0x` then lowercase hex of every byte. -/
def bytesToHexText (bs : Bytes) : Bytes := 48 :: 120 :: (bs.map byteToHex).flatten

/-- How `json.Marshal` renders a `*big.Int` field: `null` for nil, otherwise
the decimal number literal. -/
def jsonOfBigInt : Option Int → Json
  | none => Json.null
  | some n => Json.num (intToDec n)

/-- `EncodeSignedBid`: `json.Marshal` of the four-field struct, fields in
declaration order with their tag names. -/
def EncodeSignedBid (b : SignedBid) : Json :=
  Json.obj [(amountWeiKey, jsonOfBigInt b.amountWei),
            (l1BlockKey, jsonOfBigInt b.l1Block),
            (addressKey, Json.str (bytesToHexText b.address)),
            (signatureKey, Json.str (bytesToHexText b.signature))]

/-- One object field applied to the struct being decoded, as `json.Unmarshal`
does: match the key against the four tag names (an unknown key is ignored);
a `*big.Int` field takes an integer number literal and ignores `null`; the
address field takes a string of exactly 20 hex-encoded bytes; the signature
field takes a string of any even hex length.  A field that fails to
unmarshal aborts decoding. -/
def setField (b : SignedBid) (key : Bytes) (v : Json) : Option SignedBid :=
  if key = amountWeiKey then
    match v with
    | Json.null => some b
    | Json.num s => (parseBigInt s).map (fun n => { b with amountWei := some n })
    | _ => none
  else if key = l1BlockKey then
    match v with
    | Json.null => some b
    | Json.num s => (parseBigInt s).map (fun n => { b with l1Block := some n })
    | _ => none
  else if key = addressKey then
    match v with
    | Json.str s => (parseAddressText s).map (fun a => { b with address := a })
    | _ => none
  else if key = signatureKey then
    match v with
    | Json.str s => (parseHexText s).map (fun bs => { b with signature := bs })
    | _ => none
  else some b

/-- Object fields processed in order over the zero-valued struct; a later
duplicate key overwrites an earlier one, an absent key leaves the zero
value. -/
def decodeObjFields : SignedBid → List (Bytes × Json) → Option SignedBid
  | b, [] => some b
  | b, (k, v) :: rest =>
    match setField b k v with
    | some b2 => decodeObjFields b2 rest
    | none => none

/-- `DecodeSignedBid`: `json.Unmarshal` into a zero `SignedBid`.  A top-level
object fills fields as present; a top-level `null` is a successful no-op;
any other top-level value is a decode error. -/
def DecodeSignedBid : Json → Option SignedBid
  | Json.obj fields => decodeObjFields zeroBid fields
  | Json.null => some zeroBid
  | _ => none

/-
Listener and auction round (pkg/listener/listener.go).
-/

/-- The spec's reason codes for a rejected submission. -/
inductive SubmitError where
  | noActiveRound
  | wrongBlock
  | badSignature
  | notEligible
deriving DecidableEq, Repr

/-- Modelled from the spec: the `auction.RelayAuction` round object is not
among the repository's files; per the spec a round holds a current best bid,
empty meaning no accepted bid yet (the listener encodes "empty" as the
zero-address bid). -/
structure RelayAuction where
  bestBid : SignedBid
deriving DecidableEq, Repr

/-- Modelled from the spec: `RelayAuction.GetCurrentBid` (missing from the
repository's files) is a snapshot read of the round's current best bid. -/
def RelayAuction.GetCurrentBid (a : RelayAuction) : SignedBid := a.bestBid

/-- Amount a bid offers, for ranking (valid bids carry `some`). -/
def bidAmountVal (b : SignedBid) : Int := b.amountWei.getD 0

/-- Modelled from the spec: `RelayAuction.SubmitBid` (missing from the
repository's files) verifies the bid's signature, checks the bidder against
the eligibility registry, and on acceptance replaces the best bid exactly
when the slot is empty or the new amount is strictly greater (ties keep the
earlier bid); a rejection leaves the round unchanged.  `verify` and
`eligible` stand for the codec's check and the external registry. -/
def RelayAuction.SubmitBid (verify : SignedBid → Bool) (eligible : Bytes → Bool)
    (a : RelayAuction) (bid : SignedBid) : RelayAuction × Option SubmitError :=
  if verify bid = false then (a, some SubmitError.badSignature)
  else if eligible bid.address = false then (a, some SubmitError.notEligible)
  else if a.bestBid.address = zeroAddress ∨ bidAmountVal a.bestBid < bidAmountVal bid then
    ({ bestBid := bid }, none)
  else (a, none)

/-- Go's `(*big.Int).Uint64` on a bid's block field: the low 64 bits of the
absolute value; `none` models the panic the Go method raises on a nil
receiver (unlike `String`, `Uint64` has no nil check). -/
def uint64OfBigInt : Option Int → Option Nat
  | some n => some (n.natAbs % 2 ^ 64)
  | none => none

/-- The listener state the claims touch: the last observed block height and
the live round slot (`nil` = no auction in progress). -/
structure Listener where
  currentBlockNum : Nat
  currentAuction : Option RelayAuction
deriving DecidableEq, Repr

/-- `(*Listener).SubmitBid`: error when no auction is in progress; otherwise
read the bid's block number with `bid.L1Block.Uint64()` — an overall `none`
result models the Go panic on a bid with a nil block field —; error when it
differs from the current block number; otherwise hand the bid to the live
round (whose own accept/reject result the Go code discards) and return
success. -/
def Listener.SubmitBid (verify : SignedBid → Bool) (eligible : Bytes → Bool)
    (l : Listener) (bid : SignedBid) : Option (Listener × Option SubmitError) :=
  match l.currentAuction with
  | none => some (l, some SubmitError.noActiveRound)
  | some a =>
    match uint64OfBigInt bid.l1Block with
    | none => none
    | some blockNum =>
      if blockNum ≠ l.currentBlockNum then
        some (l, some SubmitError.wrongBlock)
      else
        some ({ l with
          currentAuction := some (RelayAuction.SubmitBid verify eligible a bid).1 }, none)

/-- `(*Listener).GetCurrentBid`: the zero bid and `false` when no auction is
in progress, otherwise the live round's current bid and `true`. -/
def Listener.GetCurrentBid (l : Listener) : SignedBid × Bool :=
  match l.currentAuction with
  | none => (zeroBid, false)
  | some a => (a.GetCurrentBid, true)

/-
Block monitor (`listenForBlocks`) and orchestrator (`FacilitateRelayAuction`).
-/

/-- One tick of `listenForBlocks`: read the fresh height; if it is strictly
greater than the held `currentBlockNum`, send the held (previous) height on
`NewBlockChan` and store the fresh height; otherwise do nothing.  Result:
(new held height, emitted event if any). -/
def pollStep (lastHeight newHeight : Nat) : Nat × Option Nat :=
  if newHeight > lastHeight then (newHeight, some lastHeight) else (lastHeight, none)

/-- The polling loop over a finite sequence of observed heights: the final
held height and the new-block events emitted, in order. -/
def runPolls : Nat → List Nat → Nat × List Nat
  | lastHeight, [] => (lastHeight, [])
  | lastHeight, h :: rest =>
    let s := pollStep lastHeight h
    let r := runPolls s.1 rest
    (r.1, s.2.toList ++ r.2)

/-- What one call of `MustGetBlockNum` does to the process. -/
inductive FetchOutcome where
  | ok (n : Nat)
  | exitProcess (code : Nat)
deriving DecidableEq, Repr

/-- `MustGetBlockNum`: return the height the client reports; when the client
errors, log and `os.Exit(1)` — the whole process terminates, nothing is
returned or retried. -/
def MustGetBlockNum : Option Nat → FetchOutcome
  | some n => FetchOutcome.ok n
  | none => FetchOutcome.exitProcess 1

/-- What `FacilitateRelayAuction` races: the round's result arriving on the
result channel, or the outer watchdog timer (`auctionPeriod + 1s`) firing
first. -/
inductive RaceInput where
  | result (bid : SignedBid)
  | timedOut
deriving DecidableEq, Repr

/-- `FacilitateRelayAuction`'s effect per race outcome. -/
inductive OrchOutcome where
  | forwarded (bid : SignedBid)
  | noAction
  | exited (code : Nat)
deriving DecidableEq, Repr

/-- `FacilitateRelayAuction` after starting the round: a result whose address
is the zero address means no winner (no action); a real winner is forwarded
on `AuctionWonChan`; the watchdog firing first logs the timeout and calls
`os.Exit(1)`, terminating the whole process. -/
def FacilitateRelayAuction : RaceInput → OrchOutcome
  | RaceInput.result bid =>
    if bid.address = zeroAddress then OrchOutcome.noAction else OrchOutcome.forwarded bid
  | RaceInput.timedOut => OrchOutcome.exited 1

/-
Helper lemmas: decimal and hex text round-trips.
-/

theorem parseNatFrom_digits (s : Bytes) :
    ∀ acc, (∀ c ∈ s, 48 ≤ c ∧ c ≤ 57) →
      parseNatFrom acc s = some (s.foldl (fun a c => a * 10 + (c - 48)) acc) := by
  induction s with
  | nil => intro acc _; rfl
  | cons c rest ih =>
    intro acc h
    have hc := h c (List.mem_cons_self c rest)
    have hrest : ∀ x ∈ rest, 48 ≤ x ∧ x ≤ 57 :=
      fun x hx => h x (List.mem_cons_of_mem c hx)
    simp only [parseNatFrom, digitVal, if_pos hc, List.foldl_cons]
    exact ih (acc * 10 + (c - 48)) hrest

theorem natToDecAux_digits (fuel : Nat) :
    ∀ n, ∀ c ∈ natToDecAux fuel n, 48 ≤ c ∧ c ≤ 57 := by
  induction fuel with
  | zero => intro n c hc; simp [natToDecAux] at hc
  | succ fuel ih =>
    intro n c hc
    by_cases hn : n = 0
    · simp [natToDecAux, hn] at hc
    · rw [natToDecAux, if_neg hn] at hc
      rcases List.mem_append.mp hc with h1 | h2
      · exact ih (n / 10) c h1
      · have : c = 48 + n % 10 := List.mem_singleton.mp h2
        have : n % 10 < 10 := Nat.mod_lt _ (by omega)
        omega

theorem natToDecAux_foldl (fuel : Nat) :
    ∀ n acc, n ≤ fuel →
      (natToDecAux fuel n).foldl (fun a c => a * 10 + (c - 48)) acc =
        acc * 10 ^ (natToDecAux fuel n).length + n := by
  induction fuel with
  | zero =>
    intro n acc hn
    have : n = 0 := Nat.le_zero.mp hn
    subst this
    simp [natToDecAux]
  | succ fuel ih =>
    intro n acc hn
    by_cases h0 : n = 0
    · subst h0; simp [natToDecAux]
    · rw [natToDecAux, if_neg h0]
      have hdiv : n / 10 ≤ fuel := by omega
      have hmod : n % 10 < 10 := Nat.mod_lt _ (by omega)
      rw [List.foldl_append, List.length_append, ih (n / 10) acc hdiv]
      simp only [List.foldl_cons, List.foldl_nil, List.length_singleton]
      have h48 : 48 + n % 10 - 48 = n % 10 := by omega
      rw [h48, pow_succ]
      have := Nat.div_add_mod n 10
      ring_nf
      omega

theorem natToDecAux_ne_nil (fuel n : Nat) (h0 : 0 < n) (hf : 0 < fuel) :
    natToDecAux fuel n ≠ [] := by
  rcases fuel with _ | f
  · omega
  · rw [natToDecAux, if_neg (by omega)]
    simp

theorem natToDec_digits (n : Nat) : ∀ c ∈ natToDec n, 48 ≤ c ∧ c ≤ 57 := by
  intro c hc
  rw [natToDec] at hc
  by_cases h0 : n = 0
  · rw [if_pos h0] at hc
    have : c = 48 := List.mem_singleton.mp hc
    omega
  · rw [if_neg h0] at hc
    exact natToDecAux_digits n n c hc

theorem natToDec_ne_nil (n : Nat) : natToDec n ≠ [] := by
  rw [natToDec]
  by_cases h0 : n = 0
  · rw [if_pos h0]; simp
  · rw [if_neg h0]; exact natToDecAux_ne_nil n n (by omega) (by omega)

theorem parseNat_natToDec (n : Nat) : parseNat (natToDec n) = some n := by
  obtain ⟨c, rest, hcr⟩ := List.exists_cons_of_ne_nil (natToDec_ne_nil n)
  rw [hcr]
  show parseNatFrom 0 (c :: rest) = some n
  rw [← hcr, parseNatFrom_digits (natToDec n) 0 (natToDec_digits n)]
  by_cases h0 : n = 0
  · subst h0; decide
  · rw [natToDec, if_neg h0, natToDecAux_foldl n n 0 (Nat.le_refl n)]
    simp

theorem parseBigInt_intToDec (n : Int) : parseBigInt (intToDec n) = some n := by
  by_cases hneg : n < 0
  · rw [intToDec, if_pos hneg]
    show parseBigInt (45 :: natToDec n.natAbs) = some n
    rw [parseBigInt, if_pos rfl, parseNat_natToDec]
    show some (-(n.natAbs : Int)) = some n
    congr 1
    omega
  · rw [intToDec, if_neg hneg]
    obtain ⟨c, rest, hcr⟩ := List.exists_cons_of_ne_nil (natToDec_ne_nil n.natAbs)
    have hc : 48 ≤ c ∧ c ≤ 57 :=
      natToDec_digits n.natAbs c (hcr ▸ List.mem_cons_self c rest)
    rw [hcr, parseBigInt, if_neg (by omega), if_neg (by omega), ← hcr,
      parseNat_natToDec]
    show some ((n.natAbs : Int)) = some n
    congr 1
    omega

theorem hexVal_hexDigit (d : Nat) (h : d < 16) : hexVal (hexDigit d) = some d := by
  unfold hexVal hexDigit
  by_cases h10 : d < 10
  · rw [if_pos h10, if_pos (by omega)]
    congr 1
    omega
  · rw [if_neg h10, if_neg (by omega), if_pos (by omega)]
    congr 1
    omega

theorem parseHexBody_roundtrip (bs : Bytes) (h : ∀ x ∈ bs, x < 256) :
    parseHexBody ((bs.map byteToHex).flatten) = some bs := by
  induction bs with
  | nil => rfl
  | cons b rest ih =>
    have hb : b < 256 := h b (List.mem_cons_self b rest)
    have hrest : ∀ x ∈ rest, x < 256 := fun x hx => h x (List.mem_cons_of_mem b hx)
    show parseHexBody (hexDigit (b / 16) :: hexDigit (b % 16) :: (rest.map byteToHex).flatten)
      = some (b :: rest)
    rw [parseHexBody, hexVal_hexDigit (b / 16) (by omega),
      hexVal_hexDigit (b % 16) (by omega), ih hrest]
    show some ((16 * (b / 16) + b % 16) :: rest) = some (b :: rest)
    have : 16 * (b / 16) + b % 16 = b := by omega
    rw [this]

theorem parseHexText_roundtrip (bs : Bytes) (h : ∀ x ∈ bs, x < 256) :
    parseHexText (bytesToHexText bs) = some bs := by
  show parseHexText (48 :: 120 :: (bs.map byteToHex).flatten) = some bs
  rw [parseHexText, if_pos (Or.inl rfl)]
  exact parseHexBody_roundtrip bs h

theorem parseAddressText_roundtrip (bs : Bytes) (hlen : bs.length = 20)
    (h : ∀ x ∈ bs, x < 256) : parseAddressText (bytesToHexText bs) = some bs := by
  rw [parseAddressText, parseHexText_roundtrip bs h]
  show (if bs.length = 20 then some bs else none) = some bs
  rw [if_pos hlen]

theorem setField_amountWei (b : SignedBid) (v : Json) :
    setField b amountWeiKey v =
      (match v with
       | Json.null => some b
       | Json.num s => (parseBigInt s).map (fun n => { b with amountWei := some n })
       | _ => none) := by
  cases v <;> rfl

theorem setField_l1Block (b : SignedBid) (v : Json) :
    setField b l1BlockKey v =
      (match v with
       | Json.null => some b
       | Json.num s => (parseBigInt s).map (fun n => { b with l1Block := some n })
       | _ => none) := by
  cases v <;> rfl

theorem setField_address (b : SignedBid) (v : Json) :
    setField b addressKey v =
      (match v with
       | Json.str s => (parseAddressText s).map (fun a => { b with address := a })
       | _ => none) := by
  cases v <;> rfl

theorem setField_signature (b : SignedBid) (v : Json) :
    setField b signatureKey v =
      (match v with
       | Json.str s => (parseHexText s).map (fun bs => { b with signature := bs })
       | _ => none) := by
  cases v <;> rfl

/-
Claim theorems.
-/

/-- C1: the digest is NOT injective — the code builds the pre-hash string by
bare decimal concatenation, so the pair (amount=1, targetBlock=23) and the
pair (amount=12, targetBlock=3) produce the identical pre-hash byte string
"123", and hence the identical digest under every hash function.  This
evaluates the code at the claim's own test pair and exhibits the collision
the claim rules out. -/
theorem getDataHash_collision :
    preHashBytes (some 1) (some 23) = preHashBytes (some 12) (some 3) ∧
    ∀ keccak : Bytes → Bytes,
      getDataHash keccak (some 1) (some 23) = getDataHash keccak (some 12) (some 3) := by
  have h : preHashBytes (some 1) (some 23) = preHashBytes (some 12) (some 3) := by decide
  exact ⟨h, fun keccak => by rw [getDataHash, getDataHash, h]⟩

/-- C2: each poll emits an event exactly when the fresh height is strictly
greater than the held height, the event carries the held (previous) height,
and the held height becomes the fresh one; the poll sequence
[100, 100, 101, 101, 103] starting from a last observed height of 100 emits
exactly the two events 100 and 101. -/
theorem blockMonitor_events (lastHeight newHeight : Nat) :
    pollStep lastHeight newHeight =
      (max lastHeight newHeight,
       if lastHeight < newHeight then some lastHeight else none) ∧
    runPolls 100 [100, 100, 101, 101, 103] = (103, [100, 101]) := by
  constructor
  · unfold pollStep
    rcases Nat.lt_or_ge lastHeight newHeight with h | h
    · rw [if_pos h, if_pos h, Nat.max_eq_right (Nat.le_of_lt h)]
    · rw [if_neg (Nat.not_lt.mpr h), if_neg (Nat.not_lt.mpr h), Nat.max_eq_left h]
  · decide

/-- C5: wire serialization round-trips — decoding the encoding of any
Go-representable bid (20-byte address, byte-valued entries) returns exactly
the same bid, all four fields preserved. -/
theorem decode_encode_roundtrip (b : SignedBid)
    (haddrLen : b.address.length = 20)
    (haddrBytes : ∀ x ∈ b.address, x < 256)
    (hsigBytes : ∀ x ∈ b.signature, x < 256) :
    DecodeSignedBid (EncodeSignedBid b) = some b := by
  obtain ⟨amt, blk, addr, sg⟩ := b
  show decodeObjFields zeroBid
      [(amountWeiKey, jsonOfBigInt amt), (l1BlockKey, jsonOfBigInt blk),
       (addressKey, Json.str (bytesToHexText addr)),
       (signatureKey, Json.str (bytesToHexText sg))] = some ⟨amt, blk, addr, sg⟩
  rcases amt with _ | av <;> rcases blk with _ | bv <;>
    simp only [jsonOfBigInt, decodeObjFields, setField_amountWei, setField_l1Block,
      setField_address, setField_signature, parseBigInt_intToDec,
      parseAddressText_roundtrip addr haddrLen haddrBytes,
      parseHexText_roundtrip sg hsigBytes, Option.map_some'] <;> rfl

/-- C5 witness: the round trip evaluated at one concrete bid. -/
theorem decode_encode_roundtrip_witness :
    DecodeSignedBid (EncodeSignedBid
      { amountWei := some 5, l1Block := some 10,
        address := List.replicate 20 7, signature := [1, 255] }) =
    some { amountWei := some 5, l1Block := some 10,
           address := List.replicate 20 7, signature := [1, 255] } :=
  decode_encode_roundtrip _ (by decide) (by decide) (by decide)

/-- C8 counterexample: when the height client fails, `MustGetBlockNum` calls
`os.Exit(1)` — the whole process terminates; no error value is propagated to
the owning context, contradicting the claim. -/
theorem mustGetBlockNum_exits :
    MustGetBlockNum none = FetchOutcome.exitProcess 1 := rfl

/-- C8 amended: when the height client fails, the monitoring loop terminates
the whole process with exit code 1 (it does not silently retry); on success
it returns the reported height. -/
theorem mustGetBlockNum_spec :
    MustGetBlockNum none = FetchOutcome.exitProcess 1 ∧
    ∀ n, MustGetBlockNum (some n) = FetchOutcome.ok n :=
  ⟨rfl, fun _ => rfl⟩

/-- C9 counterexample: when the outer watchdog fires before the round's
result arrives, `FacilitateRelayAuction` calls `os.Exit(1)` — the process
terminates, so no next block's round is ever begun, contradicting the
claim. -/
theorem watchdog_timeout_exits :
    FacilitateRelayAuction RaceInput.timedOut = OrchOutcome.exited 1 := rfl

/-- C9 amended: the watchdog firing first logs the protocol-timing error and
terminates the whole process with exit code 1; a result arriving in time is
dropped when it carries the zero address (no winner) and forwarded
otherwise. -/
theorem facilitateRelayAuction_spec :
    FacilitateRelayAuction RaceInput.timedOut = OrchOutcome.exited 1 ∧
    ∀ bid : SignedBid, FacilitateRelayAuction (RaceInput.result bid) =
      (if bid.address = zeroAddress then OrchOutcome.noAction
       else OrchOutcome.forwarded bid) :=
  ⟨rfl, fun _ => rfl⟩

/-- C10: `GetCurrentBid` returns the zero bid and `found = false` exactly
when no auction round is live, and the live round's current best bid with
`found = true` otherwise (it is a pure read of the listener state). -/
theorem getCurrentBid_spec (l : Listener) :
    (l.currentAuction = none → Listener.GetCurrentBid l = (zeroBid, false)) ∧
    (∀ a, l.currentAuction = some a → Listener.GetCurrentBid l = (a.bestBid, true)) ∧
    ((Listener.GetCurrentBid l).2 = false ↔ l.currentAuction = none) := by
  rcases l with ⟨n, _ | a⟩ <;>
    simp [Listener.GetCurrentBid, RelayAuction.GetCurrentBid]

/-- C3: the listener rejects with `noActiveRound` whenever no round is live
(the slot is cleared when a round completes), for a bid that carries a block
number rejects with `wrongBlock` whenever the live round exists but that
block differs from the current block number (a bid with a nil block field
instead panics, the modelled `none`), and every rejection — the listener's
own and the round's (bad signature / not eligible) — leaves the state, best
bid included, unchanged. -/
theorem submitBid_rejections (verify : SignedBid → Bool) (eligible : Bytes → Bool)
    (l : Listener) (bid : SignedBid) :
    (l.currentAuction = none →
      Listener.SubmitBid verify eligible l bid = some (l, some SubmitError.noActiveRound)) ∧
    (∀ a t, l.currentAuction = some a → bid.l1Block = some t →
      t.natAbs % 2 ^ 64 ≠ l.currentBlockNum →
      Listener.SubmitBid verify eligible l bid = some (l, some SubmitError.wrongBlock)) ∧
    (∀ a, l.currentAuction = some a → bid.l1Block = none →
      Listener.SubmitBid verify eligible l bid = none) ∧
    (∀ l2 e, Listener.SubmitBid verify eligible l bid = some (l2, some e) → l2 = l) ∧
    (∀ a a2 e, RelayAuction.SubmitBid verify eligible a bid = (a2, some e) → a2 = a) := by
  refine ⟨?_, ?_, ?_, ?_, ?_⟩
  · intro hnone
    rw [Listener.SubmitBid, hnone]
  · intro a t ha ht hne
    simp only [Listener.SubmitBid, ha, ht, uint64OfBigInt]
    rw [if_pos hne]
  · intro a ha hnil
    simp only [Listener.SubmitBid, ha, hnil, uint64OfBigInt]
  · intro l2 e h
    rcases hcur : l.currentAuction with _ | a
    · simp only [Listener.SubmitBid, hcur, Option.some.injEq] at h
      exact (congrArg Prod.fst h).symm
    · simp only [Listener.SubmitBid, hcur] at h
      rcases hblk : bid.l1Block with _ | t
      · simp only [hblk, uint64OfBigInt] at h
        exact absurd h (by simp)
      · simp only [hblk, uint64OfBigInt] at h
        by_cases hne : t.natAbs % 2 ^ 64 ≠ l.currentBlockNum
        · rw [if_pos hne] at h
          simp only [Option.some.injEq] at h
          exact (congrArg Prod.fst h).symm
        · rw [if_neg hne] at h
          simp only [Option.some.injEq] at h
          exact absurd (congrArg Prod.snd h) (by simp)
  · intro a a2 e h
    rw [RelayAuction.SubmitBid] at h
    by_cases hv : verify bid = false
    · rw [if_pos hv] at h
      exact (congrArg Prod.fst h).symm
    · rw [if_neg hv] at h
      by_cases he : eligible bid.address = false
      · rw [if_pos he] at h
        exact (congrArg Prod.fst h).symm
      · rw [if_neg he] at h
        by_cases hbest : a.bestBid.address = zeroAddress ∨ bidAmountVal a.bestBid < bidAmountVal bid
        · rw [if_pos hbest] at h
          exact absurd (congrArg Prod.snd h) (by simp)
        · rw [if_neg hbest] at h
          exact (congrArg Prod.fst h).symm

/-- C4: whenever `CreateSignedBid` succeeds, the returned bid verifies, and
the identity it stores equals the address derived from the signing key's
public key.  The hypothesis is the recoverable-signature guarantee of the
library primitives: recovering from a signature the key produced over a hash
yields that key's public key. -/
theorem createSignedBid_verify (keccak : Bytes → Bytes)
    (signPrim : Nat → Bytes → Option Bytes) (sigToPub : Bytes → Bytes → Option Nat)
    (pubToAddr : Nat → Bytes) (pubOf : Nat → Nat) (privateKey : Nat)
    (amountWei l1Block : Option Int) (b : SignedBid)
    (hrec : ∀ h s, signPrim privateKey h = some s → sigToPub s h = some (pubOf privateKey))
    (hb : CreateSignedBid keccak signPrim sigToPub pubToAddr amountWei l1Block privateKey
            = some b) :
    SignedBid.Verify keccak sigToPub pubToAddr b = true ∧
    b.address = pubToAddr (pubOf privateKey) := by
  rw [CreateSignedBid] at hb
  rcases hsign : signPrim privateKey (getDataHash keccak amountWei l1Block) with _ | s
  · rw [hsign] at hb
    exact absurd hb (by simp)
  · have hpub := hrec _ _ hsign
    simp only [hsign, hpub, Option.some.injEq] at hb
    subst hb
    constructor
    · simp [SignedBid.Verify, hpub]
    · rfl

/-- A toy hash for the C4 witness: the identity function. -/
def keccakW : Bytes → Bytes := fun s => s

/-- A toy recoverable-signature scheme for the C4 witness: a signature is the
key prepended to the hash. -/
def signPrimW : Nat → Bytes → Option Bytes := fun k h => some (k :: h)

/-- Recovery for the C4 witness scheme: peel the key off the signature and
check the hash. -/
def sigToPubW : Bytes → Bytes → Option Nat := fun s h =>
  match s with
  | [] => none
  | k :: rest => if rest = h then some (k + 1) else none

/-- Public key derivation for the C4 witness scheme. -/
def pubOfW : Nat → Nat := fun k => k + 1

/-- Address derivation for the C4 witness scheme. -/
def pubToAddrW : Nat → Bytes := fun p => [p]

/-- The bid the C4 witness scheme produces for amount 5, block 7, key 3. -/
def bidW : SignedBid :=
  { amountWei := some 5, l1Block := some 7, address := [4], signature := [3, 53, 55] }

/-- C4 witness: the sign-then-verify law instantiated at the toy scheme with
amount 5, block 7, private key 3. -/
theorem createSignedBid_verify_witness :
    SignedBid.Verify keccakW sigToPubW pubToAddrW bidW = true ∧
    bidW.address = pubToAddrW (pubOfW 3) :=
  createSignedBid_verify keccakW signPrimW sigToPubW pubToAddrW pubOfW 3
    (some 5) (some 7) bidW
    (by
      intro h s hs
      injection hs with hs
      rw [← hs]
      simp [sigToPubW, pubOfW])
    (by decide)

/-- C6: `Verify` is a total boolean function of the bid; it returns `true`
exactly when signer recovery from the stored signature over the recomputed
digest succeeds and the recovered identity equals the declared bidder — in
particular every bid on which recovery fails (malformed signature) verifies
as `false` rather than raising. -/
theorem verify_iff_recovered (keccak : Bytes → Bytes)
    (sigToPub : Bytes → Bytes → Option Nat) (pubToAddr : Nat → Bytes)
    (b : SignedBid) :
    SignedBid.Verify keccak sigToPub pubToAddr b = true ↔
      ∃ pub, sigToPub b.signature (getDataHash keccak b.amountWei b.l1Block) = some pub ∧
        pubToAddr pub = b.address := by
  rw [SignedBid.Verify]
  rcases h : sigToPub b.signature (getDataHash keccak b.amountWei b.l1Block) with _ | pub
  · simp
  · simp [decide_eq_true_eq]

/-- C7 counterexample: decoding the empty JSON object — every one of the four
fields missing — succeeds with the zero-valued bid instead of failing. -/
theorem decode_missing_fields_succeeds :
    DecodeSignedBid (Json.obj []) = some zeroBid := rfl

/-- C7 amended: decoding is strict about the format of the fields that are
present — a numeric field that is not an integer literal fails, an address
that is not exactly 20 hex-encoded bytes fails, a non-empty signature that
is not 0x-prefixed even-length hex fails (the empty string is explicitly
allowed by `hexutil` and decodes to an empty signature), and any failing
field aborts the decode — but an absent field is simply left at its zero
value (decoding the empty object succeeds). -/
theorem decode_field_strictness :
    (∀ (b : SignedBid) (s : Bytes), parseBigInt s = none →
      setField b amountWeiKey (Json.num s) = none) ∧
    (∀ (b : SignedBid) (s : Bytes), parseBigInt s = none →
      setField b l1BlockKey (Json.num s) = none) ∧
    (∀ (b : SignedBid) (s : Bytes), parseAddressText s = none →
      setField b addressKey (Json.str s) = none) ∧
    (∀ (b : SignedBid) (s bs : Bytes), parseHexText s = some bs → bs.length ≠ 20 →
      setField b addressKey (Json.str s) = none) ∧
    (∀ (b : SignedBid) (s : Bytes), parseHexText s = none →
      setField b signatureKey (Json.str s) = none) ∧
    (∀ b : SignedBid,
      setField b signatureKey (Json.str []) = some { b with signature := [] }) ∧
    (∀ (b : SignedBid) (k : Bytes) (v : Json) (rest : List (Bytes × Json)),
      setField b k v = none → decodeObjFields b ((k, v) :: rest) = none) ∧
    DecodeSignedBid (Json.obj []) = some zeroBid := by
  refine ⟨?_, ?_, ?_, ?_, ?_, ?_, ?_, rfl⟩
  · intro b s h
    rw [setField_amountWei]
    show (parseBigInt s).map _ = none
    rw [h, Option.map_none']
  · intro b s h
    rw [setField_l1Block]
    show (parseBigInt s).map _ = none
    rw [h, Option.map_none']
  · intro b s h
    rw [setField_address]
    show (parseAddressText s).map _ = none
    rw [h, Option.map_none']
  · intro b s bs hs hlen
    rw [setField_address]
    show (parseAddressText s).map _ = none
    simp [parseAddressText, hs, hlen]
  · intro b s h
    rw [setField_signature]
    show (parseHexText s).map _ = none
    rw [h, Option.map_none']
  · intro b
    rfl
  · intro b k v rest h
    rw [decodeObjFields, h]

end BlobPreconfs
